import Mathlib

/-!
# Verification of the identity-service authentication core

A shallow embedding of the authentication core of the
`social_media_microservices` repository: the user credential model
(`models/User.js`), token issuance (`utils/generateToken.js`,
`models/refreshToken.js`) and the identity controllers (login, token
rotation, logout, profile/password change, MFA verification).

Machine integers are modelled as `Nat` (JavaScript numbers here are
millisecond timestamps and small counters, far below 2^53, so no overflow
is reachable and plain `Nat` is faithful).  Mongo documents are Lean
structures, collections are lists, and each controller is a pure function
from a database state and request data to a result and an updated state.
-/

namespace SocialAuth

/-! ## Password hashing (argon2 wrapper)

`models/User.js` hashes with argon2id and verifies with `argon2.verify`.
The hash scheme is modelled as an ideal one-way function: `argonVerify h p`
holds exactly when `h` is the hash of `p`.  No claim depends on the
internals of argon2, only on this verification contract. -/

def argonHash (plaintext : String) : String :=
  "$argon2id$" ++ plaintext

def argonVerify (hash plaintext : String) : Bool :=
  hash == argonHash plaintext

/-! ## Data model -/

/-- `mfaMethod` enum of `userSchema` in `models/User.js`:
`["none", "totp", "sms", "email"]`. -/
inductive MfaMethod where
  | none
  | totp
  | sms
  | email
deriving Repr, DecidableEq

/-- Embedded `backupCodes` entry of `userSchema`: `{ code: String, used: Boolean }`. -/
structure BackupCode where
  code : String
  used : Bool
deriving Repr, DecidableEq

/-- A user document (`userSchema` in `models/User.js`).  Timestamps are
milliseconds since the epoch; `lockUntil` is `null`able, hence `Option`.
`password` holds the argon2 hash, `passwordHistory` the hashes of previous
passwords in insertion order (oldest first), as pushed by the pre-save hook. -/
structure UserRec where
  id : Nat
  username : String
  email : String
  password : String
  passwordHistory : List String
  passwordLastChanged : Nat
  failedLoginAttempts : Nat
  lockUntil : Option Nat
  mfaEnabled : Bool
  mfaMethod : MfaMethod
  mfaSecret : Option String
  backupCodes : List BackupCode
deriving Repr, DecidableEq

/-- A refresh-token document (`models/refreshToken.js`): unique `token`
string, owning `user` id, `expiresAt`, issuing `ip`, `isRevoked` flag and
nullable `revokedReason`. -/
structure TokenRec where
  token : String
  user : Nat
  expiresAt : Nat
  ip : String
  isRevoked : Bool
  revokedReason : Option String
deriving Repr, DecidableEq

/-- The persistent state: the `User` and `RefreshToken` Mongo collections. -/
structure Db where
  users : List UserRec
  tokens : List TokenRec
deriving Repr, DecidableEq

def findUserById (db : Db) (uid : Nat) : Option UserRec :=
  db.users.find? (fun v => v.id == uid)

def findUserByEmail (db : Db) (email : String) : Option UserRec :=
  db.users.find? (fun v => v.email == email)

/-- Mongoose `document.save()` on a user: replace the stored document with
the given one (documents are keyed by `_id`). -/
def saveUser (db : Db) (u : UserRec) : Db :=
  { db with users := db.users.map (fun v => if v.id == u.id then u else v) }

/-! ## `comparePassword` (`models/User.js` lines 130-180)

The method throws when the account is locked (`lockUntil && lockUntil >
Date.now()`), otherwise verifies the candidate with argon2; a mismatch
increments `failedLoginAttempts`, applies the exponential lockout policy
and persists; a match resets the lockout state.

The argon2 verification call is a parameter (`verify`) so that theorems can
express that the locked branch never consults the hasher. -/

inductive CompareOutcome where
  /-- The `throw` branch: `Account is locked. Try again in N minutes.` -/
  | locked (waitMinutes : Nat)
  /-- Normal return of `isMatch`. -/
  | ok (isMatch : Bool)
deriving Repr, DecidableEq

/-- The body after the lock check: verify, then update lockout state.
The branches mirror `if (failedLoginAttempts >= 10) ... else if (>= 5) ...`
with durations in milliseconds. -/
def comparePasswordVerify (verify : String → String → Bool) (u : UserRec)
    (now : Nat) (candidate : String) : CompareOutcome × UserRec :=
  let isMatch := verify u.password candidate
  if !isMatch then
    let n := u.failedLoginAttempts + 1
    let newLock : Option Nat :=
      if n ≥ 10 then some (now + 24 * 60 * 60 * 1000)
      else if n ≥ 5 then some (now + 2 ^ (n - 5) * 60 * 1000)
      else u.lockUntil
    (.ok false, { u with failedLoginAttempts := n, lockUntil := newLock })
  else
    if u.failedLoginAttempts > 0 then
      (.ok true, { u with failedLoginAttempts := 0, lockUntil := none })
    else
      (.ok true, u)

/-- `userSchema.methods.comparePassword`, parametric in the hash verifier.
`Math.ceil((lockUntil - now) / 60000)` on a positive integer is
`(lockUntil - now + 59999) / 60000` in `Nat` division. -/
def comparePasswordWith (verify : String → String → Bool) (u : UserRec)
    (now : Nat) (candidate : String) : CompareOutcome × UserRec :=
  match u.lockUntil with
  | some t =>
    if now < t then
      (.locked ((t - now + 59999) / 60000), u)
    else
      comparePasswordVerify verify u now candidate
  | none => comparePasswordVerify verify u now candidate

/-- `comparePassword` as the code runs it, with the real argon2 verifier. -/
def comparePassword (u : UserRec) (now : Nat) (candidate : String) :
    CompareOutcome × UserRec :=
  comparePasswordWith argonVerify u now candidate

/-- Lock-duration formula as the specification states it, §4.2:
0 below 5 failed attempts, `2^(n-5)` minutes for `5 ≤ n < 10`,
24 hours from 10 on.  In milliseconds.  This definition follows the
spec's words, to be compared against the branches of `comparePasswordVerify`. -/
def specLockDurationMs (failedAttempts : Nat) : Nat :=
  if failedAttempts < 5 then 0
  else if failedAttempts < 10 then 2 ^ (failedAttempts - 5) * 60 * 1000
  else 24 * 60 * 60 * 1000

/-! ## Token issuance (`utils/generateToken.js`)

Signs a 15-minute access token (claims `sub/username/email/iat/ip`), draws
a random 64-byte refresh token and stores it with `expiresAt = now + 7
days`, `isRevoked` defaulting to `false`.  The random draw is passed in as
the `freshTok` oracle; the caller of `generateTokens(user)` without an `ip`
argument gets the JavaScript default `"unknown"`. -/

/-- The claims of the signed access token (`payload` in `generateTokens`). -/
structure AccessPayload where
  sub : Nat
  username : String
  email : String
  iat : Nat
  ip : String
deriving Repr, DecidableEq

def sevenDaysMs : Nat := 7 * 24 * 60 * 60 * 1000

def generateTokens (db : Db) (u : UserRec) (ip : String) (now : Nat)
    (freshTok : String) : (AccessPayload × String) × Db :=
  let payload : AccessPayload :=
    { sub := u.id, username := u.username, email := u.email
      iat := now / 1000, ip := ip }
  let doc : TokenRec :=
    { token := freshTok, user := u.id, expiresAt := now + sevenDaysMs
      ip := ip, isRevoked := false, revokedReason := none }
  ((payload, freshTok), { db with tokens := db.tokens ++ [doc] })

/-! ## Login (`controllers/identity-controller.js`, `loginUser`)

Validation → user lookup by email → `comparePassword` → token issuance.
A locked account makes `comparePassword` throw, which the controller's
`catch` turns into a 500.  Note that the controller calls
`generateTokens(user)` with no `ip` argument, so login-issued refresh
tokens record the ip `"unknown"`. -/

/-- The Joi login schema (`validationLogin` in `utils/validation.js`):
`email` must be a well-formed address (the library's format check is
abstracted to nonemptiness plus containing `@`), `password` must be
present. -/
def validationLoginOk (email password : String) : Bool :=
  email ≠ "" && email.data.contains '@' && password ≠ ""

inductive LoginResult where
  /-- 400 with the Joi error message. -/
  | validationError
  /-- 400 `"User not found"`. -/
  | userNotFound
  /-- 400 `"Invalid password"`. -/
  | invalidPassword
  /-- 500 `"Internal Server Error"` — `comparePassword` threw (locked account). -/
  | serverError
  /-- 200 with the user id and freshly minted token pair. -/
  | success (userId : Nat) (accessToken : AccessPayload) (refreshToken : String)
deriving Repr, DecidableEq

def loginUser (db : Db) (now : Nat) (freshTok : String)
    (email password : String) : LoginResult × Db :=
  if !validationLoginOk email password then
    (.validationError, db)
  else
    match findUserByEmail db email with
    | none => (.userNotFound, db)
    | some u =>
      match comparePassword u now password with
      | (.locked _, _) => (.serverError, db)
      | (.ok isMatch, u') =>
        let db₁ := saveUser db u'
        if !isMatch then
          (.invalidPassword, db₁)
        else
          let r := generateTokens db₁ u' "unknown" now freshTok
          (.success u'.id r.1.1 r.1.2, r.2)

/-! ## Token rotation (`controllers/refresh-token.js`, `refreshAccessToken`)

Looks the presented token up with the filter `{token, isRevoked: false,
expiresAt > now}`; runs the production-only cross-IP theft heuristic;
revokes the presented token with reason `"Used for token refresh"` and
mints a fresh pair.  `token` is a unique key of the collection
(`unique: true` in the schema), so updating the document found by the
filter is modelled as updating by token string. -/

def rotationReason : String := "Used for token refresh"

def securityBreachReason : String := "Security breach - token used from different IP"

inductive RefreshResult where
  /-- 400 `"Refresh token is required"`. -/
  | missingToken
  /-- 401 `"Invalid or expired refresh token"`. -/
  | invalidOrExpired
  /-- 401 `"Security alert: Please login again"`. -/
  | securityAlert
  /-- 401 `"Invalid refresh token"` — owner record gone. -/
  | unknownUser
  /-- 200 with a freshly minted pair. -/
  | refreshed (accessToken : AccessPayload) (refreshToken : String)
deriving Repr, DecidableEq

/-- The live-token filter of the `RefreshToken.findOne` call. -/
def liveTokenFilter (tok : String) (now : Nat) (r : TokenRec) : Bool :=
  r.token == tok && !r.isRevoked && decide (now < r.expiresAt)

def refreshAccessToken (db : Db) (production : Bool) (now : Nat)
    (freshTok reqIp : String) (refreshToken : Option String) :
    RefreshResult × Db :=
  match refreshToken with
  | none => (.missingToken, db)
  | some tok =>
    if tok = "" then (.missingToken, db)
    else
      match db.tokens.find? (liveTokenFilter tok now) with
      | none => (.invalidOrExpired, db)
      | some doc =>
        if doc.ip != "" && doc.ip != "unknown" && doc.ip != reqIp && production then
          -- `RefreshToken.updateMany({user: doc.user}, {isRevoked: true, ...})`
          (.securityAlert,
           { db with tokens := db.tokens.map (fun r =>
               if r.user == doc.user then
                 { r with isRevoked := true, revokedReason := some securityBreachReason }
               else r) })
        else
          match findUserById db doc.user with
          | none => (.unknownUser, db)
          | some u =>
            let db₁ : Db :=
              { db with tokens := db.tokens.map (fun r =>
                  if r.token == tok then
                    { r with isRevoked := true, revokedReason := some rotationReason }
                  else r) }
            let r := generateTokens db₁ u reqIp now freshTok
            (.refreshed r.1.1 r.1.2, r.2)

/-! ## Logout (`controllers/refresh-token.js`, `revokeRefreshToken`)

`updateOne({token}, {isRevoked: true, revokedReason: "Manually revoked by
user (logout)"})`; when the update modifies nothing (`modifiedCount === 0`:
no matching document, or the document already carries exactly these
values) the controller still answers 200 with `"Token already revoked or
not found"`.  Mongo's `updateOne` touches only the first matching
document. -/

def logoutReason : String := "Manually revoked by user (logout)"

inductive LogoutResult where
  /-- 400 `"Refresh token is required"`. -/
  | missingToken
  /-- 200 `"Token already revoked or not found"` (`modifiedCount === 0`). -/
  | alreadyRevokedOrMissing
  /-- 200 `"Token revoked successfully"`. -/
  | revoked
deriving Repr, DecidableEq

/-- Apply the `$set {isRevoked: true, revokedReason: reason}` to the first
document whose `token` equals `tok`. -/
def setRevokedFirst (tok reason : String) : List TokenRec → List TokenRec
  | [] => []
  | r :: rs =>
    if r.token == tok then
      { r with isRevoked := true, revokedReason := some reason } :: rs
    else
      r :: setRevokedFirst tok reason rs

def revokeRefreshToken (db : Db) (refreshToken : Option String) :
    LogoutResult × Db :=
  match refreshToken with
  | none => (.missingToken, db)
  | some tok =>
    if tok = "" then (.missingToken, db)
    else
      match db.tokens.find? (fun r => r.token == tok) with
      | none => (.alreadyRevokedOrMissing, db)
      | some r =>
        if r.isRevoked && r.revokedReason == some logoutReason then
          (.alreadyRevokedOrMissing, db)
        else
          (.revoked, { db with tokens := setRevokedFirst tok logoutReason db.tokens })

/-! ## The pre-save hook and password change

`userSchema.pre("save")` (`models/User.js` lines 88-127): when the
password field was modified on an existing document, fetch the stored
document, push its (old) hash into `passwordHistory`, cap the history at
the last 5 entries (`slice(-5)`), stamp `passwordLastChanged`, hash the
new plaintext, and reset the lockout state.  On a brand-new document
(registration) the history push is skipped.  The `if (this.password &&
...)` truthiness test skips the push for an empty-string password. -/

/-- Saving an existing user document whose `password` field was set to the
plaintext `newPlain`: the pre-save hook applied to `u` (the stored state,
still holding the old hash). -/
def applyPasswordSave (u : UserRec) (now : Nat) (newPlain : String) : UserRec :=
  let hist :=
    if newPlain ≠ "" then
      let pushed := u.passwordHistory ++ [u.password]
      if pushed.length > 5 then pushed.drop (pushed.length - 5) else pushed
    else u.passwordHistory
  { u with
    passwordHistory := hist
    passwordLastChanged := now
    password := argonHash newPlain
    failedLoginAttempts := 0
    lockUntil := none }

/-- Saving a brand-new user document (registration): `isNew` is true, so no
history push — just hash and stamp. -/
def registerUserRec (id : Nat) (username email plaintext : String) (now : Nat) :
    UserRec :=
  { id := id, username := username, email := email
    password := argonHash plaintext
    passwordHistory := []
    passwordLastChanged := now
    failedLoginAttempts := 0
    lockUntil := none
    mfaEnabled := false
    mfaMethod := .none
    mfaSecret := none
    backupCodes := [] }

/-- `userSchema.methods.isPasswordReused`: re-verify the candidate
plaintext against every hash in the history (a verification error on one
entry is caught and checking continues, which the total `argonVerify`
subsumes). -/
def isPasswordReused (u : UserRec) (newPassword : String) : Bool :=
  u.passwordHistory.any (fun h => argonVerify h newPassword)

/-- User states reachable through registration and password saves — the
flows that write the `password` field through the pre-save hook. -/
inductive ReachableUser : UserRec → Prop where
  | registered (id : Nat) (username email plaintext : String) (now : Nat) :
      ReachableUser (registerUserRec id username email plaintext now)
  | passwordChanged (u : UserRec) (now : Nat) (newPlain : String) :
      ReachableUser u → ReachableUser (applyPasswordSave u now newPlain)

/-! ## `changePassword` (`controllers/profile.js` lines 865-934)

Verify the current password (`comparePassword`, with its lockout side
effects persisted), reject `newPassword === currentPassword`, reject
reused passwords, otherwise assign and save (triggering the pre-save
hook) and revoke all of the user's active refresh tokens with reason
`"Password changed"`. -/

def passwordChangedReason : String := "Password changed"

inductive ChangePasswordResult where
  /-- 404 `"User not found"`. -/
  | unknownUser
  /-- 400 `"Current password is incorrect"`. -/
  | currentIncorrect
  /-- 400 `"New password must be different from current password"`. -/
  | sameAsCurrent
  /-- 400 `"Password has been used before, please choose a different password"`. -/
  | reusedPassword
  /-- 200 `"Password changed successfully. ..."`. -/
  | changed
  /-- 500 — `comparePassword` threw (locked account). -/
  | serverError
deriving Repr, DecidableEq

def changePassword (db : Db) (now : Nat) (userId : Nat)
    (currentPassword newPassword : String) : ChangePasswordResult × Db :=
  match findUserById db userId with
  | none => (.unknownUser, db)
  | some u =>
    match comparePassword u now currentPassword with
    | (.locked _, _) => (.serverError, db)
    | (.ok isMatch, u₁) =>
      let db₁ := saveUser db u₁
      if !isMatch then (.currentIncorrect, db₁)
      else if currentPassword == newPassword then (.sameAsCurrent, db₁)
      else if isPasswordReused u₁ newPassword then (.reusedPassword, db₁)
      else
        let u₂ := applyPasswordSave u₁ now newPassword
        let db₂ := saveUser db₁ u₂
        (.changed,
         { db₂ with tokens := db₂.tokens.map (fun r =>
             if r.user == userId && !r.isRevoked then
               { r with isRevoked := true, revokedReason := some passwordChangedReason }
             else r) })

/-! ## MFA verification during login (`controllers/mfa.js`, `verifyMFA`)

If a (truthy) backup code is submitted, the first unused entry with that
code is consumed (`used = true`, saved); otherwise the active method is
checked: TOTP through the authenticator library (here the `totpOk`
oracle), SMS/email by strict equality with the stored one-time secret,
which is replaced by a fresh random value after a successful check. -/

inductive MfaVerifyResult where
  /-- 400 `"MFA not enabled for this user"` (also: user not found). -/
  | notEnabled
  /-- 400 `"Invalid verification code"`. -/
  | invalidCode
  /-- 200 `"MFA verification successful"`. -/
  | verified
deriving Repr, DecidableEq

/-- `user.backupCodes.find(c => c.code === bc && !c.used)` followed by
mutating that entry's `used` flag: returns whether a match was found and
the updated list. -/
def useFirstBackupCode (bc : String) : List BackupCode → Bool × List BackupCode
  | [] => (false, [])
  | c :: cs =>
    if c.code == bc && !c.used then
      (true, { c with used := true } :: cs)
    else
      let r := useFirstBackupCode bc cs
      (r.1, c :: r.2)

/-- The `else if` chain taken when no (truthy) backup code was submitted. -/
def verifyMFAMethodChain (db : Db) (u : UserRec)
    (totpOk : String → String → Bool) (freshSecret : String)
    (token : Option String) (method : Option MfaMethod) :
    MfaVerifyResult × Db :=
  match method with
  | some .totp =>
    if u.mfaMethod = .totp then
      if totpOk ((token).getD "") ((u.mfaSecret).getD "") then (.verified, db)
      else (.invalidCode, db)
    else (.invalidCode, db)
  | some .sms =>
    if u.mfaMethod = .sms then
      match token, u.mfaSecret with
      | some t, some s =>
        if t == s then (.verified, saveUser db { u with mfaSecret := some freshSecret })
        else (.invalidCode, db)
      | _, _ => (.invalidCode, db)
    else (.invalidCode, db)
  | some .email =>
    if u.mfaMethod = .email then
      match token, u.mfaSecret with
      | some t, some s =>
        if t == s then (.verified, saveUser db { u with mfaSecret := some freshSecret })
        else (.invalidCode, db)
      | _, _ => (.invalidCode, db)
    else (.invalidCode, db)
  | _ => (.invalidCode, db)

def verifyMFA (db : Db) (totpOk : String → String → Bool) (freshSecret : String)
    (userId : Nat) (token : Option String) (method : Option MfaMethod)
    (backupCode : Option String) : MfaVerifyResult × Db :=
  match findUserById db userId with
  | none => (.notEnabled, db)
  | some u =>
    if !u.mfaEnabled then (.notEnabled, db)
    else
      match backupCode with
      | some bc =>
        if bc ≠ "" then
          let r := useFirstBackupCode bc u.backupCodes
          if r.1 then (.verified, saveUser db { u with backupCodes := r.2 })
          else (.invalidCode, db)
        else verifyMFAMethodChain db u totpOk freshSecret token method
      | none => verifyMFAMethodChain db u totpOk freshSecret token method

/-! ## Revoke-all and the delete-based logout -/

def revokeAllSessionsReason : String := "Logout from all devices"

/-- `revokeAllRefreshTokens` (`controllers/refresh-token.js`):
`updateMany({user, isRevoked: false, expiresAt > now}, {isRevoked: true,
revokedReason: "Logout from all devices"})`; returns the modified count. -/
def revokeAllRefreshTokens (db : Db) (userId now : Nat) : Nat × Db :=
  let hit := fun (r : TokenRec) =>
    r.user == userId && !r.isRevoked && decide (now < r.expiresAt)
  ((db.tokens.filter hit).length,
   { db with tokens := db.tokens.map (fun r =>
       if hit r then
         { r with isRevoked := true, revokedReason := some revokeAllSessionsReason }
       else r) })

inductive SimpleLogoutResult where
  /-- 400 `"Refresh token not found"`. -/
  | missingToken
  /-- 200 `"Logged out successfully"`. -/
  | loggedOut
deriving Repr, DecidableEq

/-- Mongo `deleteOne({token})`: remove the first matching document. -/
def eraseFirstToken (tok : String) : List TokenRec → List TokenRec
  | [] => []
  | r :: rs => if r.token == tok then rs else r :: eraseFirstToken tok rs

/-- `logoutController` (`controllers/identity-controller.js` lines 245-266):
`RefreshToken.deleteOne({token})` and an unconditional 200. -/
def logoutController (db : Db) (refreshToken : Option String) :
    SimpleLogoutResult × Db :=
  match refreshToken with
  | none => (.missingToken, db)
  | some tok =>
    if tok = "" then (.missingToken, db)
    else (.loggedOut, { db with tokens := eraseFirstToken tok db.tokens })

/-! ## Operation traces over the stores

The operations of the modelled service that touch the user and
refresh-token collections, as a step relation, used to state temporal
claims ("once revoked, every later rotation presenting the token is
rejected").  Well-formedness of a trace demands that every operation that
draws a random refresh token draws one that is not already a key of the
store — the crypto-random 512-bit draw combined with the collection's
unique index on `token`. -/

inductive StoreOp where
  | rotate (production : Bool) (now : Nat) (freshTok reqIp : String)
      (refreshToken : Option String)
  | logout (refreshToken : Option String)
  | revokeAll (userId now : Nat)
  | changePw (now : Nat) (userId : Nat) (currentPassword newPassword : String)
  | login (now : Nat) (freshTok : String) (email password : String)
  | mint (u : UserRec) (ip : String) (now : Nat) (freshTok : String)
  | mfaVerify (totpOk : String → String → Bool) (freshSecret : String)
      (userId : Nat) (token : Option String) (method : Option MfaMethod)
      (backupCode : Option String)

def stepOp (db : Db) : StoreOp → Db
  | .rotate p n f i rt => (refreshAccessToken db p n f i rt).2
  | .logout rt => (revokeRefreshToken db rt).2
  | .revokeAll uid n => (revokeAllRefreshTokens db uid n).2
  | .changePw n uid c nw => (changePassword db n uid c nw).2
  | .login n f e pw => (loginUser db n f e pw).2
  | .mint u ip n f => (generateTokens db u ip n f).2
  | .mfaVerify t s uid tk m bc => (verifyMFA db t s uid tk m bc).2

/-- Freshness of random token draws with respect to the current store. -/
def wfOp (db : Db) : StoreOp → Prop
  | .rotate _ _ f _ _ => f ∉ db.tokens.map (·.token)
  | .login _ f _ _ => f ∉ db.tokens.map (·.token)
  | .mint _ _ _ f => f ∉ db.tokens.map (·.token)
  | _ => True

def WFTrace : Db → List StoreOp → Prop
  | _, [] => True
  | db, op :: ops => wfOp db op ∧ WFTrace (stepOp db op) ops

def runOps (db : Db) : List StoreOp → Db
  | [] => db
  | op :: ops => runOps (stepOp db op) ops

/-- Some stored document carries this token string. -/
def TokenPresent (ts : List TokenRec) (tok : String) : Prop :=
  ∃ r ∈ ts, r.token = tok

/-- Every stored document carrying this token string is revoked. -/
def RevokedAll (ts : List TokenRec) (tok : String) : Prop :=
  ∀ r ∈ ts, r.token = tok → r.isRevoked = true

/-- The token is recorded and every record of it is revoked. -/
def revokedPresent (db : Db) (tok : String) : Prop :=
  TokenPresent db.tokens tok ∧ RevokedAll db.tokens tok

/-- One store step relates old and new token lists by: a pointwise part
that keeps token strings and never un-revokes, plus appended records whose
token strings are new to the store. -/
def TokStep (old : List TokenRec) (ts : List TokenRec) : Prop :=
  ∃ ts₁ ts₂, ts = ts₁ ++ ts₂ ∧
    List.Forall₂
      (fun r r' => r'.token = r.token ∧ (r.isRevoked = true → r'.isRevoked = true))
      old ts₁ ∧
    ∀ r ∈ ts₂, r.token ∉ old.map (·.token)

/-! ## Traces of MFA verification calls -/

structure MfaCall where
  totpOk : String → String → Bool
  freshSecret : String
  userId : Nat
  token : Option String
  method : Option MfaMethod
  backupCode : Option String

def stepVerifyMFA (db : Db) (c : MfaCall) : Db :=
  (verifyMFA db c.totpOk c.freshSecret c.userId c.token c.method c.backupCode).2

def runVerifyMFA (db : Db) (cs : List MfaCall) : Db :=
  cs.foldl stepVerifyMFA db

/-- In the stored state of user `uid`, every backup-code entry carrying
the code string `bc` has been consumed. -/
def codeUsedIn (db : Db) (uid : Nat) (bc : String) : Prop :=
  ∀ u, findUserById db uid = some u → ∀ e ∈ u.backupCodes, e.code = bc → e.used = true

/-! ## Concrete fixtures

Small concrete states used to evaluate the controllers on explicit
inputs. -/

/-- A freshly registered user whose password is `Password1!`. -/
def wAlice : UserRec :=
  registerUserRec 1 "alice" "alice@x.com" "Password1!" 0

/-- The same user with TOTP MFA enabled and two unused backup codes. -/
def wMfaAlice : UserRec :=
  { wAlice with
    mfaEnabled := true
    mfaMethod := .totp
    mfaSecret := some "SECRET"
    backupCodes := [⟨"c1", false⟩, ⟨"c2", false⟩] }

/-- A live refresh token of user 1, issued without a known IP (the login
path calls `generateTokens(user)` with the default `"unknown"`). -/
def wTok : TokenRec :=
  { token := "t1", user := 1, expiresAt := 1000000, ip := "unknown"
    isRevoked := false, revokedReason := none }

def wDb : Db := { users := [wAlice], tokens := [wTok] }

end SocialAuth

namespace SocialAuth

/-! # Theorems -/

/-! ## Helper lemmas about `comparePassword` -/

theorem comparePasswordWith_not_locked (verify : String → String → Bool)
    (u : UserRec) (now : Nat) (candidate : String)
    (hnl : ∀ t, u.lockUntil = some t → t ≤ now) :
    comparePasswordWith verify u now candidate
      = comparePasswordVerify verify u now candidate := by
  unfold comparePasswordWith
  cases hu : u.lockUntil with
  | none => rfl
  | some t =>
    have h := hnl t hu
    simp [Nat.not_lt.mpr h]

theorem comparePasswordVerify_fail_eq (verify : String → String → Bool)
    (u : UserRec) (now : Nat) (candidate : String)
    (h : verify u.password candidate = false) :
    comparePasswordVerify verify u now candidate =
      (.ok false,
       { u with
         failedLoginAttempts := u.failedLoginAttempts + 1
         lockUntil :=
           if u.failedLoginAttempts + 1 ≥ 10 then
             some (now + 24 * 60 * 60 * 1000)
           else if u.failedLoginAttempts + 1 ≥ 5 then
             some (now + 2 ^ (u.failedLoginAttempts + 1 - 5) * 60 * 1000)
           else u.lockUntil }) := by
  simp [comparePasswordVerify, h]

theorem comparePasswordVerify_match_eq (verify : String → String → Bool)
    (u : UserRec) (now : Nat) (candidate : String)
    (h : verify u.password candidate = true) :
    comparePasswordVerify verify u now candidate =
      (.ok true,
       if u.failedLoginAttempts > 0 then
         { u with failedLoginAttempts := 0, lockUntil := none }
       else u) := by
  simp only [comparePasswordVerify, h, Bool.not_true, Bool.false_eq_true,
    if_false]
  split <;> rfl

/-- **C2.** The lockout policy: after the failed-verification increment,
a counter `n < 5` locks for duration 0 (the lock field is untouched),
`5 ≤ n < 10` locks for `2^(n-5)` minutes, `n ≥ 10` locks for 24 hours;
on every failed verification of an unlocked account the counter is
incremented and, whenever the duration is positive, `lockUntil` is set to
`now` plus that duration.  `specLockDurationMs` is the specification's
formula; the conclusion matches it against the branches of
`comparePassword`. -/
theorem lockout_policy_applied (u : UserRec) (now : Nat) (candidate : String)
    (hnl : ∀ t, u.lockUntil = some t → t ≤ now)
    (hfail : argonVerify u.password candidate = false) :
    (comparePassword u now candidate).1 = .ok false
    ∧ (comparePassword u now candidate).2.failedLoginAttempts
        = u.failedLoginAttempts + 1
    ∧ (comparePassword u now candidate).2.lockUntil =
        (if 0 < specLockDurationMs (u.failedLoginAttempts + 1) then
           some (now + specLockDurationMs (u.failedLoginAttempts + 1))
         else u.lockUntil) := by
  have h1 : comparePassword u now candidate
      = comparePasswordVerify argonVerify u now candidate :=
    comparePasswordWith_not_locked argonVerify u now candidate hnl
  rw [h1, comparePasswordVerify_fail_eq argonVerify u now candidate hfail]
  refine ⟨rfl, rfl, ?_⟩
  simp only [specLockDurationMs]
  rcases Nat.lt_or_ge (u.failedLoginAttempts + 1) 5 with h5 | h5
  · rw [if_pos h5, if_neg (by omega : ¬ u.failedLoginAttempts + 1 ≥ 10),
      if_neg (by omega : ¬ u.failedLoginAttempts + 1 ≥ 5)]
    simp
  · rw [if_neg (by omega : ¬ u.failedLoginAttempts + 1 < 5)]
    rcases Nat.lt_or_ge (u.failedLoginAttempts + 1) 10 with h10 | h10
    · rw [if_pos h10, if_neg (by omega : ¬ u.failedLoginAttempts + 1 ≥ 10),
        if_pos h5, if_pos (by positivity)]
    · rw [if_neg (by omega : ¬ u.failedLoginAttempts + 1 < 10),
        if_pos h10, if_pos (by norm_num)]

/-- Witness for C2: four prior failures, a fifth wrong password at time
1000 sets a 1-minute lock. -/
theorem lockout_policy_applied_witness :
    (comparePassword { wAlice with failedLoginAttempts := 4 } 1000 "Wrong").1
        = .ok false
    ∧ (comparePassword { wAlice with failedLoginAttempts := 4 } 1000
        "Wrong").2.failedLoginAttempts
        = { wAlice with failedLoginAttempts := 4 }.failedLoginAttempts + 1
    ∧ (comparePassword { wAlice with failedLoginAttempts := 4 } 1000
        "Wrong").2.lockUntil =
        (if 0 < specLockDurationMs
            ({ wAlice with failedLoginAttempts := 4 }.failedLoginAttempts + 1) then
           some (1000 + specLockDurationMs
             ({ wAlice with failedLoginAttempts := 4 }.failedLoginAttempts + 1))
         else { wAlice with failedLoginAttempts := 4 }.lockUntil) :=
  lockout_policy_applied { wAlice with failedLoginAttempts := 4 } 1000 "Wrong"
    (by intro t h; simp [wAlice, registerUserRec] at h) (by decide)

/-- **C3.** While `lockUntil` lies strictly in the future, `comparePassword`
throws the locked error and leaves the user unchanged, for an arbitrary
candidate password and an arbitrary hash verifier: the outcome is
independent of the verifier, so the password hasher is never consulted and
the attempt is rejected even when the password is correct. -/
theorem locked_account_fails_fast (u : UserRec) (now t : Nat)
    (hl : u.lockUntil = some t) (hfut : now < t) :
    ∀ (verify : String → String → Bool) (candidate : String),
      comparePasswordWith verify u now candidate
        = (.locked ((t - now + 59999) / 60000), u) := by
  intro verify candidate
  unfold comparePasswordWith
  rw [hl]
  simp [hfut]

/-- Witness for C3: a user locked until time 5000 is rejected at time 1000
even when presenting the correct password to the real argon2 verifier. -/
theorem locked_account_fails_fast_witness :
    comparePasswordWith argonVerify { wAlice with lockUntil := some 5000 }
        1000 "Password1!"
      = (.locked 1, { wAlice with lockUntil := some 5000 }) :=
  locked_account_fails_fast { wAlice with lockUntil := some 5000 } 1000 5000
    rfl (by decide) argonVerify "Password1!"

/-! ## Login: user enumeration (C6) and MFA bypass (C5) -/

/-- **C6, counterexample.**  The two failure cases are distinguishable at
the API surface: an unknown email yields the 400 response `"User not
found"` while a known email with a wrong password yields the 400 response
`"Invalid password"`, refuting the claim that both runs produce one
indistinguishable `InvalidCredentials` result. -/
theorem login_enumeration_counterexample :
    (loginUser ⟨[wAlice], []⟩ 1000 "rt1" "bob@x.com" "Password1!").1
        = .userNotFound
    ∧ (loginUser ⟨[wAlice], []⟩ 1000 "rt1" "alice@x.com" "Wrong1!").1
        = .invalidPassword
    ∧ LoginResult.userNotFound ≠ LoginResult.invalidPassword := by
  refine ⟨by decide, by decide, by decide⟩

/-- **C6, amended.**  Login with an unknown identifier returns the
`"User not found"` result while login with a known identifier and a wrong
password returns the distinct `"Invalid password"` result: the two
caller-visible responses differ, so the caller can tell which case
occurred (the code does not implement the anti-enumeration property). -/
theorem login_enumeration_amended (db : Db) (now : Nat) (freshTok : String)
    (email₁ pw₁ email₂ pw₂ : String) (u : UserRec)
    (hv₁ : validationLoginOk email₁ pw₁ = true)
    (hv₂ : validationLoginOk email₂ pw₂ = true)
    (hunknown : findUserByEmail db email₁ = none)
    (hfound : findUserByEmail db email₂ = some u)
    (hnl : ∀ t, u.lockUntil = some t → t ≤ now)
    (hwrong : argonVerify u.password pw₂ = false) :
    (loginUser db now freshTok email₁ pw₁).1 = .userNotFound
    ∧ (loginUser db now freshTok email₂ pw₂).1 = .invalidPassword
    ∧ LoginResult.userNotFound ≠ LoginResult.invalidPassword := by
  refine ⟨?_, ?_, by decide⟩
  · simp [loginUser, hv₁, hunknown]
  · have hc : comparePassword u now pw₂
        = comparePasswordVerify argonVerify u now pw₂ :=
      comparePasswordWith_not_locked argonVerify u now pw₂ hnl
    simp [loginUser, hv₂, hfound, hc,
      comparePasswordVerify_fail_eq argonVerify u now pw₂ hwrong]

/-- Witness for the amended C6 at a concrete store. -/
theorem login_enumeration_amended_witness :
    (loginUser ⟨[wAlice], []⟩ 1000 "rt1" "bob@x.com" "Secret9!").1
        = .userNotFound
    ∧ (loginUser ⟨[wAlice], []⟩ 1000 "rt1" "alice@x.com" "Nope123!").1
        = .invalidPassword
    ∧ LoginResult.userNotFound ≠ LoginResult.invalidPassword :=
  login_enumeration_amended ⟨[wAlice], []⟩ 1000 "rt1" "bob@x.com" "Secret9!"
    "alice@x.com" "Nope123!" wAlice (by decide) (by decide) (by decide)
    (by decide) (by intro t h; simp [wAlice, registerUserRec] at h) (by decide)

/-- **C5.**  Login never consults the MFA configuration: for the concrete
store holding a user with `mfaEnabled = true` (TOTP method, secret set,
unused backup codes), a login with correct credentials immediately
returns a 200 with an access payload and a stored, unrevoked refresh
token — no `MfaRequired` challenge exists anywhere in the login result
type, contradicting the specified flow in which tokens appear only after
second-factor verification. -/
theorem login_ignores_mfa :
    wMfaAlice.mfaEnabled = true
    ∧ (loginUser ⟨[wMfaAlice], []⟩ 1000 "rt1" "alice@x.com" "Password1!").1
        = .success 1 ⟨1, "alice", "alice@x.com", 1, "unknown"⟩ "rt1"
    ∧ (loginUser ⟨[wMfaAlice], []⟩ 1000 "rt1" "alice@x.com"
        "Password1!").2.tokens
        = [{ token := "rt1", user := 1, expiresAt := 1000 + sevenDaysMs
             ip := "unknown", isRevoked := false, revokedReason := none }] := by
  refine ⟨rfl, by decide, by decide⟩

/-! ## Password change and password history (C7, C8) -/

theorem findUserById_saveUser (db : Db) (w : UserRec) (uid : Nat) :
    findUserById (saveUser db w) uid
      = (findUserById db uid).map (fun v => if v.id == w.id then w else v) := by
  unfold findUserById saveUser
  rw [List.find?_map]
  have hpf : ((fun v : UserRec => v.id == uid)
        ∘ fun v => if (v.id == w.id) = true then w else v)
      = fun v : UserRec => v.id == uid := by
    funext v
    by_cases h : v.id == w.id
    · have hv : v.id = w.id := by simpa using h
      simp [Function.comp_apply, h, hv]
    · have hne : v.id ≠ w.id := by simpa using h
      simp [Function.comp_apply, h, hne]
  rw [hpf]

theorem saveUser_tokens (db : Db) (w : UserRec) :
    (saveUser db w).tokens = db.tokens := rfl

/-- **C7.**  When the current password verifies, the account is not
locked, and the submitted new password differs from the current one but
re-verifies against some hash in the password history, `changePassword`
answers with the reuse rejection, mutates no refresh token, and leaves
the stored password hash and the history unchanged. -/
theorem change_password_rejects_reused (db : Db) (now uid : Nat)
    (currentPassword newPassword : String) (u : UserRec)
    (hfind : findUserById db uid = some u)
    (hnl : ∀ t, u.lockUntil = some t → t ≤ now)
    (hcur : argonVerify u.password currentPassword = true)
    (hdiff : currentPassword ≠ newPassword)
    (hreused : isPasswordReused u newPassword = true) :
    (changePassword db now uid currentPassword newPassword).1 = .reusedPassword
    ∧ (changePassword db now uid currentPassword newPassword).2.tokens
        = db.tokens
    ∧ ∀ v, findUserById
          (changePassword db now uid currentPassword newPassword).2 uid
            = some v →
        v.password = u.password ∧ v.passwordHistory = u.passwordHistory := by
  have hc : comparePassword u now currentPassword
      = comparePasswordVerify argonVerify u now currentPassword :=
    comparePasswordWith_not_locked argonVerify u now currentPassword hnl
  rw [comparePasswordVerify_match_eq argonVerify u now currentPassword hcur]
    at hc
  set u₁ : UserRec :=
    if u.failedLoginAttempts > 0 then
      { u with failedLoginAttempts := 0, lockUntil := none }
    else u with hu₁
  have hpw : u₁.password = u.password := by
    rw [hu₁]; split <;> rfl
  have hhist : u₁.passwordHistory = u.passwordHistory := by
    rw [hu₁]; split <;> rfl
  have hreused₁ : isPasswordReused u₁ newPassword = true := by
    unfold isPasswordReused at hreused ⊢
    rw [hhist]; exact hreused
  have hbeq : (currentPassword == newPassword) = false :=
    beq_eq_false_iff_ne.mpr hdiff
  have hmain : changePassword db now uid currentPassword newPassword
      = (.reusedPassword, saveUser db u₁) := by
    simp only [changePassword, hfind, hc, hbeq, hreused₁, Bool.not_true,
      Bool.false_eq_true, if_false, if_true]
  refine ⟨by rw [hmain], by rw [hmain, saveUser_tokens], ?_⟩
  intro v hv
  rw [hmain] at hv
  simp only at hv
  rw [findUserById_saveUser, hfind] at hv
  have hid : u.id = u₁.id := by rw [hu₁]; split <;> rfl
  simp only [Option.map, hid, beq_self_eq_true, if_true] at hv
  cases hv
  exact ⟨hpw, hhist⟩

/-- Witness for C7: the stored user's history holds the hash of
`OldPass1!`; changing to `OldPass1!` is rejected as reused without
touching the stored password. -/
theorem change_password_rejects_reused_witness :
    (changePassword
        ⟨[{ wAlice with passwordHistory := [argonHash "OldPass1!"] }], [wTok]⟩
        1000 1 "Password1!" "OldPass1!").1 = .reusedPassword
    ∧ (changePassword
        ⟨[{ wAlice with passwordHistory := [argonHash "OldPass1!"] }], [wTok]⟩
        1000 1 "Password1!" "OldPass1!").2.tokens = [wTok]
    ∧ ∀ v, findUserById
          (changePassword
            ⟨[{ wAlice with passwordHistory := [argonHash "OldPass1!"] }],
             [wTok]⟩ 1000 1 "Password1!" "OldPass1!").2 1 = some v →
        v.password = { wAlice with
            passwordHistory := [argonHash "OldPass1!"] }.password
        ∧ v.passwordHistory = { wAlice with
            passwordHistory := [argonHash "OldPass1!"] }.passwordHistory :=
  change_password_rejects_reused
    ⟨[{ wAlice with passwordHistory := [argonHash "OldPass1!"] }], [wTok]⟩
    1000 1 "Password1!" "OldPass1!"
    { wAlice with passwordHistory := [argonHash "OldPass1!"] }
    (by decide) (by intro t h; simp [wAlice, registerUserRec] at h)
    (by decide) (by decide) (by decide)

theorem applyPasswordSave_history_len (u : UserRec) (now : Nat) (p : String)
    (hlen : u.passwordHistory.length ≤ 5) :
    (applyPasswordSave u now p).passwordHistory.length ≤ 5 := by
  unfold applyPasswordSave
  by_cases hp : p = ""
  · simp [hp]; exact hlen
  · simp only [hp, ne_eq, not_false_eq_true, if_true]
    split
    · simp only [List.length_drop]
      omega
    · simp only [List.length_append, List.length_cons, List.length_nil]
      rename_i hgt
      simp only [List.length_append, List.length_cons, List.length_nil] at hgt
      omega

theorem reachable_history_len (u : UserRec) (h : ReachableUser u) :
    u.passwordHistory.length ≤ 5 := by
  induction h with
  | registered id username email plaintext now => simp [registerUserRec]
  | passwordChanged v now p hv ih => exact applyPasswordSave_history_len v now p ih

/-- **C8.**  In every user state reachable through registration and
password saves, the history holds at most 5 hashes, and a further
password save appends the current hash at the tail and drops entries
from the head (the oldest first) exactly when the bound would be
exceeded. -/
theorem password_history_bounded (u : UserRec) (h : ReachableUser u) :
    u.passwordHistory.length ≤ 5
    ∧ ∀ (now : Nat) (newPlain : String), newPlain ≠ "" →
        (applyPasswordSave u now newPlain).passwordHistory
          = (u.passwordHistory ++ [u.password]).drop
              (u.passwordHistory.length + 1 - 5) := by
  have hlen := reachable_history_len u h
  refine ⟨hlen, ?_⟩
  intro now newPlain hp
  unfold applyPasswordSave
  simp only [hp, ne_eq, not_false_eq_true, if_true]
  split
  · rename_i hgt
    simp only [List.length_append, List.length_cons, List.length_nil]
  · rename_i hle
    simp only [List.length_append, List.length_cons, List.length_nil] at hle
    have h0 : u.passwordHistory.length + 1 - 5 = 0 := by omega
    rw [h0, List.drop_zero]

/-- Witness for C8 at a user reached by one registration and one password
change. -/
theorem password_history_bounded_witness :
    (applyPasswordSave wAlice 5 "SecondPw1!").passwordHistory.length ≤ 5 :=
  (password_history_bounded (applyPasswordSave wAlice 5 "SecondPw1!")
    (.passwordChanged wAlice 5 "SecondPw1!"
      (.registered 1 "alice" "alice@x.com" "Password1!" 0))).1

/-! ## Logout (C10) -/

theorem find?_setRevokedFirst (tok reason : String) (ts : List TokenRec) :
    (setRevokedFirst tok reason ts).find? (fun r => r.token == tok)
      = (ts.find? (fun r => r.token == tok)).map
          (fun r => { r with isRevoked := true, revokedReason := some reason }) := by
  induction ts with
  | nil => rfl
  | cons r rs ih =>
    by_cases h : r.token == tok
    · simp [setRevokedFirst, h, List.find?_cons_of_pos]
    · simp only [setRevokedFirst, h, Bool.false_eq_true, if_false]
      rw [List.find?_cons_of_neg _ (by simpa using h),
        List.find?_cons_of_neg _ (by simpa using h)]
      exact ih

/-- **C10, counterexample.**  Logging out a token that is already revoked
with a different reason (here: revoked by rotation) answers 200 but
*changes* the store: the `updateOne` overwrites `revokedReason` with the
logout reason, refuting "still returns Ok while leaving the store
unchanged" for already-revoked tokens. -/
theorem logout_already_revoked_counterexample :
    (revokeRefreshToken
        ⟨[], [⟨"t1", 1, 99, "unknown", true, some rotationReason⟩]⟩
        (some "t1")).2
      ≠ ⟨[], [⟨"t1", 1, 99, "unknown", true, some rotationReason⟩]⟩
    ∧ (revokeRefreshToken
        ⟨[], [⟨"t1", 1, 99, "unknown", true, some rotationReason⟩]⟩
        (some "t1")).2.tokens
      = [⟨"t1", 1, 99, "unknown", true, some logoutReason⟩] := by
  refine ⟨by decide, by decide⟩

/-- **C10, amended.**  Logout with a nonempty token always answers 200:
with a token absent from the store it reports "already revoked or not
found" and leaves the store unchanged; likewise when the stored document
already carries exactly the logout revocation values; in every other case
it revokes the document (at most overwriting the revocation reason with
the logout reason), and the store effect is idempotent — logging out
twice with the same token leaves exactly the state of logging out once. -/
theorem logout_always_ok_and_idempotent (db : Db) (tok : String)
    (htok : tok ≠ "") :
    (db.tokens.find? (fun r => r.token == tok) = none →
        revokeRefreshToken db (some tok) = (.alreadyRevokedOrMissing, db))
    ∧ (∀ r, db.tokens.find? (fun q => q.token == tok) = some r →
        r.isRevoked = true → r.revokedReason = some logoutReason →
        revokeRefreshToken db (some tok) = (.alreadyRevokedOrMissing, db))
    ∧ (revokeRefreshToken db (some tok)).1 ≠ .missingToken
    ∧ (revokeRefreshToken (revokeRefreshToken db (some tok)).2 (some tok)).2
        = (revokeRefreshToken db (some tok)).2 := by
  refine ⟨?_, ?_, ?_, ?_⟩
  · intro hnone
    simp [revokeRefreshToken, htok, hnone]
  · intro r hr h1 h2
    simp [revokeRefreshToken, htok, hr, h1, h2, logoutReason]
  · cases hfind : db.tokens.find? (fun r => r.token == tok) with
    | none =>
      have h1 : revokeRefreshToken db (some tok) = (.alreadyRevokedOrMissing, db) := by
        simp [revokeRefreshToken, htok, hfind]
      rw [h1]
      simp
    | some r =>
      by_cases hrl : (r.isRevoked && r.revokedReason == some logoutReason) = true
      · have h1 : revokeRefreshToken db (some tok) = (.alreadyRevokedOrMissing, db) := by
          simp [revokeRefreshToken, htok, hfind, hrl]
        rw [h1]
        simp
      · have h1 : revokeRefreshToken db (some tok)
            = (.revoked, { db with tokens := setRevokedFirst tok logoutReason db.tokens }) := by
          simp [revokeRefreshToken, htok, hfind, hrl]
        rw [h1]
        simp
  · cases hfind : db.tokens.find? (fun r => r.token == tok) with
    | none =>
      have h1 : revokeRefreshToken db (some tok) = (.alreadyRevokedOrMissing, db) := by
        simp [revokeRefreshToken, htok, hfind]
      rw [h1, h1]
    | some r =>
      by_cases hrl : (r.isRevoked && r.revokedReason == some logoutReason) = true
      · have h1 : revokeRefreshToken db (some tok) = (.alreadyRevokedOrMissing, db) := by
          simp [revokeRefreshToken, htok, hfind, hrl]
        rw [h1, h1]
      · have h1 : revokeRefreshToken db (some tok)
            = (.revoked, { db with tokens := setRevokedFirst tok logoutReason db.tokens }) := by
          simp [revokeRefreshToken, htok, hfind, hrl]
        have h2 : (setRevokedFirst tok logoutReason db.tokens).find?
              (fun q => q.token == tok)
            = some { r with isRevoked := true, revokedReason := some logoutReason } := by
          rw [find?_setRevokedFirst, hfind]
          rfl
        have h3 : revokeRefreshToken
              { db with tokens := setRevokedFirst tok logoutReason db.tokens }
              (some tok)
            = (.alreadyRevokedOrMissing,
               { db with tokens := setRevokedFirst tok logoutReason db.tokens }) := by
          simp [revokeRefreshToken, htok, h2]
        rw [h1, h3]

/-- Witness for the amended C10: logging out an absent token is a 200
no-op, and a double logout of a live token equals a single one. -/
theorem logout_always_ok_and_idempotent_witness :
    revokeRefreshToken (⟨[], []⟩ : Db) (some "t1")
      = (.alreadyRevokedOrMissing, (⟨[], []⟩ : Db))
    ∧ (revokeRefreshToken (revokeRefreshToken wDb (some "t1")).2 (some "t1")).2
        = (revokeRefreshToken wDb (some "t1")).2 :=
  ⟨(logout_always_ok_and_idempotent (⟨[], []⟩ : Db) "t1" (by decide)).1 rfl,
   (logout_always_ok_and_idempotent wDb "t1" (by decide)).2.2.2⟩

/-! ## Token rotation: cross-IP theft detection (C4) -/

/-- **C4, counterexample.**  Login-issued tokens record the placeholder ip
`"unknown"` (the controller calls `generateTokens(user)` without an ip).
Rotating such a token from ip `203.0.113.7` in production mode — the
recorded issuance ip differs from the requesting ip — does *not* revoke
the owner's sessions and reject: the guard skips any stored ip equal to
`""` or `"unknown"`, so the call rotates and mints a fresh pair. -/
theorem rotate_ip_mismatch_counterexample :
    wTok.ip = "unknown"
    ∧ wTok.ip ≠ "203.0.113.7"
    ∧ (refreshAccessToken wDb true 1000 "t2" "203.0.113.7" (some "t1")).1
        = .refreshed ⟨1, "alice", "alice@x.com", 1, "203.0.113.7"⟩ "t2" := by
  refine ⟨rfl, by decide, by decide⟩

/-- **C4, amended.**  In production mode, when rotation is presented a
stored, unrevoked, unexpired token whose recorded issuance ip is a real
recorded address — non-empty and not the `"unknown"` placeholder — and
differs from the requesting ip, the call revokes **every** refresh token
of that owner with the security-breach reason, answers with the security
alert instead of rotating, and mints no new token (the stored token
strings are exactly the old ones, and the user collection is untouched). -/
theorem rotate_ip_mismatch_revokes_all (db : Db) (production : Bool)
    (now : Nat) (freshTok reqIp tok : String) (doc : TokenRec)
    (htok : tok ≠ "")
    (hfind : db.tokens.find? (liveTokenFilter tok now) = some doc)
    (hip1 : doc.ip ≠ "") (hip2 : doc.ip ≠ "unknown") (hip3 : doc.ip ≠ reqIp)
    (hprod : production = true) :
    refreshAccessToken db production now freshTok reqIp (some tok)
      = (.securityAlert,
         { db with tokens := db.tokens.map (fun r =>
             if r.user == doc.user then
               { r with isRevoked := true
                        revokedReason := some securityBreachReason }
             else r) })
    ∧ (∀ r ∈ (refreshAccessToken db production now freshTok reqIp
          (some tok)).2.tokens,
        r.user = doc.user →
          r.isRevoked = true ∧ r.revokedReason = some securityBreachReason)
    ∧ (refreshAccessToken db production now freshTok reqIp
        (some tok)).2.tokens.map (·.token) = db.tokens.map (·.token)
    ∧ (refreshAccessToken db production now freshTok reqIp
        (some tok)).2.users = db.users := by
  have hguard : (doc.ip != "" && doc.ip != "unknown" && doc.ip != reqIp
      && production) = true := by
    simp [hip1, hip2, hip3, hprod]
  have hmain : refreshAccessToken db production now freshTok reqIp (some tok)
      = (.securityAlert,
         { db with tokens := db.tokens.map (fun r =>
             if r.user == doc.user then
               { r with isRevoked := true
                        revokedReason := some securityBreachReason }
             else r) }) := by
    simp only [refreshAccessToken, if_neg htok, hfind, hguard, if_true]
  refine ⟨hmain, ?_, ?_, ?_⟩
  · intro r hr hruser
    rw [hmain] at hr
    simp only [List.mem_map] at hr
    obtain ⟨r₀, hr₀, hrr⟩ := hr
    by_cases h : r₀.user == doc.user
    · rw [← hrr]
      simp [h]
    · exfalso
      rw [← hrr] at hruser
      simp only [h, Bool.false_eq_true, if_false] at hruser
      exact absurd (by simpa using hruser) (by simpa using h)
  · rw [hmain]
    simp only [List.map_map]
    apply List.map_congr_left
    intro r _
    simp only [Function.comp_apply]
    split <;> rfl
  · rw [hmain]

/-- Witness for the amended C4: a token issued to `10.0.0.1`, presented
from `9.9.9.9` in production, triggers the revoke-all security response. -/
theorem rotate_ip_mismatch_revokes_all_witness :
    refreshAccessToken
        ⟨[wAlice], [⟨"t1", 1, 1000000, "10.0.0.1", false, none⟩,
                    ⟨"t9", 1, 2000000, "10.0.0.1", false, none⟩]⟩
        true 1000 "t2" "9.9.9.9" (some "t1")
      = (.securityAlert,
         { users := [wAlice]
           tokens := List.map (fun r =>
             if r.user == (⟨"t1", 1, 1000000, "10.0.0.1", false, none⟩ : TokenRec).user then
               { r with isRevoked := true
                        revokedReason := some securityBreachReason }
             else r)
             [⟨"t1", 1, 1000000, "10.0.0.1", false, none⟩,
              ⟨"t9", 1, 2000000, "10.0.0.1", false, none⟩] }) :=
  (rotate_ip_mismatch_revokes_all
    ⟨[wAlice], [⟨"t1", 1, 1000000, "10.0.0.1", false, none⟩,
                ⟨"t9", 1, 2000000, "10.0.0.1", false, none⟩]⟩
    true 1000 "t2" "9.9.9.9" "t1" ⟨"t1", 1, 1000000, "10.0.0.1", false, none⟩
    (by decide) (by decide) (by decide) (by decide) (by decide) rfl).1

/-! ## One-shot backup codes (C9) -/

theorem useFirstBackupCode_of_all_used (bc : String) (codes : List BackupCode)
    (h : ∀ e ∈ codes, e.code = bc → e.used = true) :
    useFirstBackupCode bc codes = (false, codes) := by
  induction codes with
  | nil => rfl
  | cons c cs ih =>
    have hc : (c.code == bc && !c.used) = false := by
      by_cases hcode : c.code = bc
      · have := h c (List.mem_cons_self c cs) hcode
        simp [this]
      · simp [hcode]
    simp only [useFirstBackupCode, hc, Bool.false_eq_true, if_false]
    rw [ih (fun e he => h e (List.mem_cons_of_mem c he))]

theorem useFirstBackupCode_mono (bc : String) (codes : List BackupCode) :
    ∀ e' ∈ (useFirstBackupCode bc codes).2,
      ∃ e ∈ codes, e'.code = e.code ∧ (e.used = true → e'.used = true) := by
  induction codes with
  | nil => intro e' he'; cases he'
  | cons c cs ih =>
    intro e' he'
    by_cases hc : (c.code == bc && !c.used) = true
    · simp only [useFirstBackupCode, hc, if_true] at he'
      rcases List.mem_cons.mp he' with h1 | h1
      · exact ⟨c, List.mem_cons_self c cs, by rw [h1], fun _ => by rw [h1]⟩
      · exact ⟨e', List.mem_cons_of_mem c h1, rfl, fun h => h⟩
    · simp only [useFirstBackupCode, hc, Bool.false_eq_true, if_false] at he'
      rcases List.mem_cons.mp he' with h1 | h1
      · exact ⟨c, List.mem_cons_self c cs, by rw [h1], fun h => by rw [h1]; exact h⟩
      · obtain ⟨e, he, h2, h3⟩ := ih e' h1
        exact ⟨e, List.mem_cons_of_mem c he, h2, h3⟩

theorem useFirstBackupCode_found (bc : String) (codes : List BackupCode)
    (hmem : ∃ e ∈ codes, e.code = bc ∧ e.used = false) :
    (useFirstBackupCode bc codes).1 = true := by
  induction codes with
  | nil => obtain ⟨e, he, _⟩ := hmem; cases he
  | cons c cs ih =>
    by_cases hc : (c.code == bc && !c.used) = true
    · simp [useFirstBackupCode, hc]
    · simp only [useFirstBackupCode, hc, Bool.false_eq_true, if_false]
      obtain ⟨e, he, hcode, hused⟩ := hmem
      rcases List.mem_cons.mp he with h1 | h1
      · exfalso
        apply hc
        rw [← h1] at hc ⊢
        simp [hcode, hused]
      · exact ih ⟨e, h1, hcode, hused⟩

theorem useFirstBackupCode_consumes (bc : String) (codes : List BackupCode)
    (hnd : (codes.map BackupCode.code).Nodup)
    (hmem : ∃ e ∈ codes, e.code = bc ∧ e.used = false) :
    ∀ e' ∈ (useFirstBackupCode bc codes).2, e'.code = bc → e'.used = true := by
  induction codes with
  | nil => obtain ⟨e, he, _⟩ := hmem; cases he
  | cons c cs ih =>
    simp only [List.map_cons, List.nodup_cons] at hnd
    intro e' he' hcode'
    by_cases hc : (c.code == bc && !c.used) = true
    · have hccode : c.code = bc := by
        have hc' : c.code = bc ∧ c.used = false := by simpa using hc
        exact hc'.1
      simp only [useFirstBackupCode, hc, if_true] at he'
      rcases List.mem_cons.mp he' with h1 | h1
      · rw [h1]
      · exfalso
        apply hnd.1
        rw [hccode, ← hcode']
        exact List.mem_map_of_mem BackupCode.code h1
    · simp only [useFirstBackupCode, hc, Bool.false_eq_true, if_false] at he'
      obtain ⟨e, he, hcode, hused⟩ := hmem
      have hecs : e ∈ cs := by
        rcases List.mem_cons.mp he with h1 | h1
        · exfalso
          apply hc
          rw [← h1] at hc ⊢
          simp [hcode, hused]
        · exact h1
      rcases List.mem_cons.mp he' with h1 | h1
      · exfalso
        apply hnd.1
        rw [h1] at hcode'
        rw [hcode', ← hcode]
        exact List.mem_map_of_mem BackupCode.code hecs
      · exact ih hnd.2 ⟨e, hecs, hcode, hused⟩ e' h1 hcode'

theorem codeUsedIn_saveUser (db : Db) (u u' : UserRec) (uid : Nat) (bc : String)
    (h : codeUsedIn db uid bc)
    (hid : u'.id = u.id)
    (hfind : findUserById db u.id = some u)
    (hcodes : ∀ e ∈ u'.backupCodes,
      ∃ e₀ ∈ u.backupCodes, e.code = e₀.code ∧ (e₀.used = true → e.used = true)) :
    codeUsedIn (saveUser db u') uid bc := by
  intro v hv e he hcode
  rw [findUserById_saveUser] at hv
  cases hfu : findUserById db uid with
  | none => rw [hfu] at hv; cases hv
  | some w =>
    rw [hfu] at hv
    simp only [Option.map] at hv
    have hveq : v = if w.id == u'.id then u' else w := by
      cases hv; rfl
    by_cases hw : (w.id == u'.id) = true
    · rw [hveq, if_pos hw] at he
      obtain ⟨e₀, he₀, hc₀, hmono⟩ := hcodes e he
      have hwid : w.id = uid := by simpa using List.find?_some hfu
      have hweq : w.id = u'.id := by simpa using hw
      have huid : uid = u.id := by rw [← hwid, hweq, hid]
      have hwu : w = u := by
        have hsame : findUserById db uid = some u := by rw [huid]; exact hfind
        rw [hsame] at hfu
        exact (Option.some.inj hfu).symm
      apply hmono
      apply h w hfu e₀
      · rw [hwu]; exact he₀
      · rw [← hc₀]; exact hcode
    · rw [hveq, if_neg hw] at he
      exact h w hfu e he hcode

theorem verifyMFAMethodChain_db (db : Db) (u : UserRec)
    (totpOk : String → String → Bool) (freshSecret : String)
    (token : Option String) (method : Option MfaMethod) :
    (verifyMFAMethodChain db u totpOk freshSecret token method).2 = db
    ∨ (verifyMFAMethodChain db u totpOk freshSecret token method).2
        = saveUser db { u with mfaSecret := some freshSecret } := by
  unfold verifyMFAMethodChain
  repeat' split
  all_goals first
  | exact Or.inl rfl
  | exact Or.inr rfl

theorem verifyMFAMethodChain_preserves (db : Db) (u : UserRec)
    (totpOk : String → String → Bool) (freshSecret : String)
    (token : Option String) (method : Option MfaMethod) (uid : Nat) (bc : String)
    (h : codeUsedIn db uid bc)
    (hfind : findUserById db u.id = some u) :
    codeUsedIn (verifyMFAMethodChain db u totpOk freshSecret token method).2 uid bc := by
  rcases verifyMFAMethodChain_db db u totpOk freshSecret token method with hc | hc
  · rw [hc]; exact h
  · rw [hc]
    exact codeUsedIn_saveUser db u { u with mfaSecret := some freshSecret } uid bc
      h rfl hfind (fun e he => ⟨e, he, rfl, fun x => x⟩)

theorem stepVerifyMFA_preserves_codeUsed (db : Db) (c : MfaCall) (uid : Nat)
    (bc : String) (h : codeUsedIn db uid bc) :
    codeUsedIn (stepVerifyMFA db c) uid bc := by
  unfold stepVerifyMFA verifyMFA
  cases hf : findUserById db c.userId with
  | none => exact h
  | some u =>
    have hfind : findUserById db u.id = some u := by
      have hid : u.id = c.userId := by simpa using List.find?_some hf
      rw [hid]; exact hf
    cases hmfa : u.mfaEnabled with
    | false => simp only [hmfa, Bool.not_false, if_true]; exact h
    | true =>
      simp only [hmfa, Bool.not_true, Bool.false_eq_true, if_false]
      cases hbc' : c.backupCode with
      | none =>
        exact verifyMFAMethodChain_preserves db u c.totpOk c.freshSecret
          c.token c.method uid bc h hfind
      | some bc' =>
        by_cases hbce : bc' = ""
        · simp only [hbce, ne_eq, not_true_eq_false, if_false]
          exact verifyMFAMethodChain_preserves db u c.totpOk c.freshSecret
            c.token c.method uid bc h hfind
        · simp only [hbce, ne_eq, not_false_eq_true, if_true]
          by_cases hr : (useFirstBackupCode bc' u.backupCodes).1 = true
          · simp only [hr, if_true]
            have hsave := codeUsedIn_saveUser db u
              { u with backupCodes := (useFirstBackupCode bc' u.backupCodes).2 }
              uid bc h rfl hfind
              (fun e he => useFirstBackupCode_mono bc' u.backupCodes e he)
            simpa [hmfa] using hsave
          · simp only [hr, if_false]
            exact h

theorem runVerifyMFA_preserves_codeUsed (db : Db) (cs : List MfaCall)
    (uid : Nat) (bc : String) (h : codeUsedIn db uid bc) :
    codeUsedIn (runVerifyMFA db cs) uid bc := by
  induction cs generalizing db with
  | nil => exact h
  | cons c cs ih => exact ih _ (stepVerifyMFA_preserves_codeUsed db c uid bc h)

theorem verifyMFA_rejects_used (db : Db) (f : String → String → Bool)
    (s : String) (uid : Nat) (t : Option String) (m : Option MfaMethod)
    (bc : String) (hbc : bc ≠ "") (h : codeUsedIn db uid bc) :
    (verifyMFA db f s uid t m (some bc)).1 ≠ .verified
    ∧ (verifyMFA db f s uid t m (some bc)).2 = db := by
  unfold verifyMFA
  cases hf : findUserById db uid with
  | none => exact ⟨by simp, rfl⟩
  | some u =>
    cases hmfa : u.mfaEnabled with
    | false => constructor <;> simp [hmfa]
    | true =>
      have hall : ∀ e ∈ u.backupCodes, e.code = bc → e.used = true := h u hf
      have hnone := useFirstBackupCode_of_all_used bc u.backupCodes hall
      constructor <;> simp [hmfa, hbc, hnone]

/-- **C9.**  A backup code accepted during MFA login verification flips
its `used` flag from false to true; from then on, every entry carrying
that code in the stored user is consumed, this stays so across any
further sequence of `verifyMFA` calls (the flag is never reset), and any
later submission of the same code fails to authenticate and leaves the
store untouched.  The no-duplicates hypothesis reflects the ten
independent random 8-hex-digit draws at enrollment. -/
theorem backup_code_single_use (db : Db) (f : String → String → Bool)
    (s : String) (uid : Nat) (t : Option String) (m : Option MfaMethod)
    (bc : String) (u : UserRec)
    (hfind : findUserById db uid = some u)
    (hen : u.mfaEnabled = true)
    (hbc : bc ≠ "")
    (hnd : (u.backupCodes.map BackupCode.code).Nodup)
    (hmem : ∃ e ∈ u.backupCodes, e.code = bc ∧ e.used = false) :
    (verifyMFA db f s uid t m (some bc)).1 = .verified
    ∧ codeUsedIn (verifyMFA db f s uid t m (some bc)).2 uid bc
    ∧ (∀ cs : List MfaCall,
        codeUsedIn (runVerifyMFA (verifyMFA db f s uid t m (some bc)).2 cs) uid bc)
    ∧ (∀ (cs : List MfaCall) (f₂ : String → String → Bool) (s₂ : String)
        (t₂ : Option String) (m₂ : Option MfaMethod),
        (verifyMFA (runVerifyMFA (verifyMFA db f s uid t m (some bc)).2 cs)
            f₂ s₂ uid t₂ m₂ (some bc)).1 ≠ .verified
        ∧ (verifyMFA (runVerifyMFA (verifyMFA db f s uid t m (some bc)).2 cs)
            f₂ s₂ uid t₂ m₂ (some bc)).2
          = runVerifyMFA (verifyMFA db f s uid t m (some bc)).2 cs) := by
  have hfound := useFirstBackupCode_found bc u.backupCodes hmem
  have hmain : verifyMFA db f s uid t m (some bc)
      = (.verified,
         saveUser db
           { u with backupCodes := (useFirstBackupCode bc u.backupCodes).2 }) := by
    simp [verifyMFA, hfind, hen, hbc, hfound]
  have hused : codeUsedIn
      (saveUser db
        { u with backupCodes := (useFirstBackupCode bc u.backupCodes).2 })
      uid bc := by
    intro v hv e he hcode
    rw [findUserById_saveUser, hfind] at hv
    simp only [Option.map, beq_self_eq_true, if_true] at hv
    cases hv
    exact useFirstBackupCode_consumes bc u.backupCodes hnd hmem e he hcode
  refine ⟨by rw [hmain], by rw [hmain]; exact hused, ?_, ?_⟩
  · intro cs
    rw [hmain]
    exact runVerifyMFA_preserves_codeUsed _ cs uid bc hused
  · intro cs f₂ s₂ t₂ m₂
    apply verifyMFA_rejects_used _ f₂ s₂ uid t₂ m₂ bc hbc
    rw [hmain]
    exact runVerifyMFA_preserves_codeUsed _ cs uid bc hused

/-- Witness for C9: user 1's backup code `c1` authenticates once and is
rejected when immediately resubmitted. -/
theorem backup_code_single_use_witness :
    (verifyMFA ⟨[wMfaAlice], []⟩ (fun _ _ => false) "ZZ" 1 none none
        (some "c1")).1 = .verified
    ∧ (verifyMFA
        (runVerifyMFA
          (verifyMFA ⟨[wMfaAlice], []⟩ (fun _ _ => false) "ZZ" 1 none none
            (some "c1")).2 [])
        (fun _ _ => false) "ZZ" 1 none none (some "c1")).1 ≠ .verified :=
  ⟨(backup_code_single_use ⟨[wMfaAlice], []⟩ (fun _ _ => false) "ZZ" 1 none
      none "c1" wMfaAlice (by decide) rfl (by decide) (by decide)
      ⟨⟨"c1", false⟩, by decide, rfl, rfl⟩).1,
   ((backup_code_single_use ⟨[wMfaAlice], []⟩ (fun _ _ => false) "ZZ" 1 none
      none "c1" wMfaAlice (by decide) rfl (by decide) (by decide)
      ⟨⟨"c1", false⟩, by decide, rfl, rfl⟩).2.2.2 []
      (fun _ _ => false) "ZZ" none none).1⟩

/-! ## Refresh-token rotation is single-use (C1)

The store-level facts: every modelled operation relates the token list to
its predecessor by a pointwise token-preserving, revocation-monotone part
plus freshly named appended records (`TokStep`); hence "revoked and
present" is an invariant, and a revoked token can never again pass the
live-token lookup of the rotation controller. -/

theorem forall₂_tok_refl (ts : List TokenRec) :
    List.Forall₂
      (fun r r' => r'.token = r.token ∧ (r.isRevoked = true → r'.isRevoked = true))
      ts ts := by
  induction ts with
  | nil => exact List.Forall₂.nil
  | cons r rs ih => exact List.Forall₂.cons ⟨rfl, fun h => h⟩ ih

theorem tokStep_self (old : List TokenRec) : TokStep old old :=
  ⟨old, [], (List.append_nil old).symm, forall₂_tok_refl old,
   by intro r hr; cases hr⟩

theorem forall₂_map_of_mono (g : TokenRec → TokenRec)
    (hg1 : ∀ r, (g r).token = r.token)
    (hg2 : ∀ r, r.isRevoked = true → (g r).isRevoked = true)
    (ts : List TokenRec) :
    List.Forall₂
      (fun r r' => r'.token = r.token ∧ (r.isRevoked = true → r'.isRevoked = true))
      ts (ts.map g) := by
  induction ts with
  | nil => exact List.Forall₂.nil
  | cons r rs ih => exact List.Forall₂.cons ⟨hg1 r, hg2 r⟩ ih

theorem tokStep_map (old : List TokenRec) (g : TokenRec → TokenRec)
    (hg1 : ∀ r, (g r).token = r.token)
    (hg2 : ∀ r, r.isRevoked = true → (g r).isRevoked = true) :
    TokStep old (old.map g) :=
  ⟨old.map g, [], (List.append_nil _).symm, forall₂_map_of_mono g hg1 hg2 old,
   by intro r hr; cases hr⟩

theorem tokStep_map_append (old : List TokenRec) (g : TokenRec → TokenRec)
    (hg1 : ∀ r, (g r).token = r.token)
    (hg2 : ∀ r, r.isRevoked = true → (g r).isRevoked = true)
    (nr : TokenRec) (hnr : nr.token ∉ old.map (·.token)) :
    TokStep old (old.map g ++ [nr]) := by
  refine ⟨old.map g, [nr], rfl, forall₂_map_of_mono g hg1 hg2 old, ?_⟩
  intro r hr
  rcases List.mem_singleton.mp hr with h
  rw [h]
  exact hnr

theorem tokStep_append (old : List TokenRec) (nr : TokenRec)
    (hnr : nr.token ∉ old.map (·.token)) :
    TokStep old (old ++ [nr]) := by
  refine ⟨old, [nr], rfl, forall₂_tok_refl old, ?_⟩
  intro r hr
  rcases List.mem_singleton.mp hr with h
  rw [h]
  exact hnr

theorem forall₂_setRevokedFirst (tok reason : String) (ts : List TokenRec) :
    List.Forall₂
      (fun r r' => r'.token = r.token ∧ (r.isRevoked = true → r'.isRevoked = true))
      ts (setRevokedFirst tok reason ts) := by
  induction ts with
  | nil => exact List.Forall₂.nil
  | cons r rs ih =>
    by_cases h : (r.token == tok) = true
    · simp only [setRevokedFirst, h, if_true]
      exact List.Forall₂.cons ⟨rfl, fun _ => rfl⟩ (forall₂_tok_refl rs)
    · simp only [setRevokedFirst, h, Bool.false_eq_true, if_false]
      exact List.Forall₂.cons ⟨rfl, fun hq => hq⟩ ih

theorem tokStep_setRevokedFirst (old : List TokenRec) (tok reason : String) :
    TokStep old (setRevokedFirst tok reason old) :=
  ⟨setRevokedFirst tok reason old, [], (List.append_nil _).symm,
   forall₂_setRevokedFirst tok reason old, by intro r hr; cases hr⟩

theorem tokenPresent_of_forall₂ {old ts : List TokenRec} {tok : String}
    (hf : List.Forall₂
      (fun r r' => r'.token = r.token ∧ (r.isRevoked = true → r'.isRevoked = true))
      old ts)
    (hp : TokenPresent old tok) : TokenPresent ts tok := by
  induction hf with
  | nil => obtain ⟨r, hr, _⟩ := hp; cases hr
  | cons hab htl ih =>
    obtain ⟨r, hr, hrt⟩ := hp
    rcases List.mem_cons.mp hr with h1 | h1
    · rename_i a b l₁ l₂
      exact ⟨b, List.mem_cons_self b l₂, by rw [hab.1, ← h1, hrt]⟩
    · obtain ⟨r', hr', hrt'⟩ := ih ⟨r, h1, hrt⟩
      rename_i a b l₁ l₂
      exact ⟨r', List.mem_cons_of_mem b hr', hrt'⟩

theorem revokedAll_of_forall₂ {old ts : List TokenRec} {tok : String}
    (hf : List.Forall₂
      (fun r r' => r'.token = r.token ∧ (r.isRevoked = true → r'.isRevoked = true))
      old ts)
    (hr : RevokedAll old tok) : RevokedAll ts tok := by
  induction hf with
  | nil => intro r hrm _; cases hrm
  | cons hab htl ih =>
    rename_i a b l₁ l₂
    intro r hrm hrt
    rcases List.mem_cons.mp hrm with h1 | h1
    · rw [h1]
      apply hab.2
      apply hr a (List.mem_cons_self a l₁)
      rw [← hab.1, ← h1]
      exact hrt
    · exact ih (fun q hq hqt => hr q (List.mem_cons_of_mem a hq) hqt) r h1 hrt

theorem tokStep_preserves {old ts : List TokenRec} {tok : String}
    (h : TokStep old ts) (hp : TokenPresent old tok) (hr : RevokedAll old tok) :
    TokenPresent ts tok ∧ RevokedAll ts tok := by
  obtain ⟨ts₁, ts₂, heq, hf, hnew⟩ := h
  have htokmem : tok ∈ old.map (·.token) := by
    obtain ⟨r, hrm, hrt⟩ := hp
    rw [← hrt]
    exact List.mem_map_of_mem _ hrm
  constructor
  · rw [heq]
    obtain ⟨r, hrm, hrt⟩ := tokenPresent_of_forall₂ hf hp
    exact ⟨r, List.mem_append_left ts₂ hrm, hrt⟩
  · rw [heq]
    intro r hrm hrt
    rcases List.mem_append.mp hrm with h1 | h1
    · exact revokedAll_of_forall₂ hf hr r h1 hrt
    · exfalso
      apply hnew r h1
      rw [hrt]
      exact htokmem

theorem revokeFlag_token (c : TokenRec → Bool) (reason : String) (r : TokenRec) :
    ((if c r then
        { r with isRevoked := true, revokedReason := some reason }
      else r) : TokenRec).token = r.token := by
  split <;> rfl

theorem revokeFlag_mono (c : TokenRec → Bool) (reason : String) (r : TokenRec)
    (hr : r.isRevoked = true) :
    ((if c r then
        { r with isRevoked := true, revokedReason := some reason }
      else r) : TokenRec).isRevoked = true := by
  split
  · rfl
  · exact hr

theorem verifyMFA_tokens (db : Db) (f : String → String → Bool) (s : String)
    (uid : Nat) (t : Option String) (m : Option MfaMethod)
    (bc : Option String) :
    (verifyMFA db f s uid t m bc).2.tokens = db.tokens := by
  simp only [verifyMFA, verifyMFAMethodChain]
  repeat' split
  all_goals rfl

theorem refreshAccessToken_tokStep (db : Db) (p : Bool) (now : Nat)
    (f ip : String) (rt : Option String)
    (hwf : f ∉ db.tokens.map (·.token)) :
    TokStep db.tokens (refreshAccessToken db p now f ip rt).2.tokens := by
  cases rt with
  | none => exact tokStep_self _
  | some tok =>
    by_cases htok : tok = ""
    · have heq : refreshAccessToken db p now f ip (some tok)
          = (.missingToken, db) := by
        simp [refreshAccessToken, htok]
      rw [heq]
      exact tokStep_self _
    · cases hfind : db.tokens.find? (liveTokenFilter tok now) with
      | none =>
        have heq : refreshAccessToken db p now f ip (some tok)
            = (.invalidOrExpired, db) := by
          simp [refreshAccessToken, htok, hfind]
        rw [heq]
        exact tokStep_self _
      | some doc =>
        by_cases hip :
            (doc.ip != "" && doc.ip != "unknown" && doc.ip != ip && p) = true
        · have heq : (refreshAccessToken db p now f ip (some tok)).2.tokens
              = db.tokens.map (fun r =>
                  if r.user == doc.user then
                    { r with isRevoked := true
                             revokedReason := some securityBreachReason }
                  else r) := by
            simp [refreshAccessToken, htok, hfind, hip]
          rw [heq]
          exact tokStep_map _ _
            (revokeFlag_token (fun r => r.user == doc.user) securityBreachReason)
            (revokeFlag_mono (fun r => r.user == doc.user) securityBreachReason)
        · cases huser : findUserById db doc.user with
          | none =>
            have heq : refreshAccessToken db p now f ip (some tok)
                = (.unknownUser, db) := by
              simp [refreshAccessToken, htok, hfind, hip, huser]
            rw [heq]
            exact tokStep_self _
          | some u =>
            have heq : (refreshAccessToken db p now f ip (some tok)).2.tokens
                = db.tokens.map (fun r =>
                    if r.token == tok then
                      { r with isRevoked := true
                               revokedReason := some rotationReason }
                    else r)
                  ++ [{ token := f, user := u.id, expiresAt := now + sevenDaysMs
                        ip := ip, isRevoked := false, revokedReason := none }] := by
              simp [refreshAccessToken, htok, hfind, hip, huser, generateTokens]
            rw [heq]
            exact tokStep_map_append _ _
              (revokeFlag_token (fun r => r.token == tok) rotationReason)
              (revokeFlag_mono (fun r => r.token == tok) rotationReason)
              _ hwf

theorem revokeRefreshToken_tokStep (db : Db) (rt : Option String) :
    TokStep db.tokens (revokeRefreshToken db rt).2.tokens := by
  unfold revokeRefreshToken
  repeat' split
  all_goals first
  | exact tokStep_self _
  | exact tokStep_setRevokedFirst _ _ _

theorem revokeAll_tokStep (db : Db) (uid now : Nat) :
    TokStep db.tokens (revokeAllRefreshTokens db uid now).2.tokens :=
  tokStep_map _ _
    (revokeFlag_token
      (fun r => r.user == uid && !r.isRevoked && decide (now < r.expiresAt))
      revokeAllSessionsReason)
    (revokeFlag_mono
      (fun r => r.user == uid && !r.isRevoked && decide (now < r.expiresAt))
      revokeAllSessionsReason)

theorem changePassword_tokStep (db : Db) (now uid : Nat) (cur nw : String) :
    TokStep db.tokens (changePassword db now uid cur nw).2.tokens := by
  unfold changePassword
  repeat' split
  all_goals first
  | exact tokStep_self _
  | exact tokStep_map _ _
      (revokeFlag_token (fun r => r.user == uid && !r.isRevoked)
        passwordChangedReason)
      (revokeFlag_mono (fun r => r.user == uid && !r.isRevoked)
        passwordChangedReason)

theorem loginUser_tokStep (db : Db) (now : Nat) (f e pw : String)
    (hwf : f ∉ db.tokens.map (·.token)) :
    TokStep db.tokens (loginUser db now f e pw).2.tokens := by
  unfold loginUser
  repeat' split
  all_goals first
  | exact tokStep_self _
  | exact tokStep_append _ _ hwf

theorem stepOp_tokStep (db : Db) (op : StoreOp) (hwf : wfOp db op) :
    TokStep db.tokens (stepOp db op).tokens := by
  cases op with
  | rotate p n f i rt => exact refreshAccessToken_tokStep db p n f i rt hwf
  | logout rt => exact revokeRefreshToken_tokStep db rt
  | revokeAll uid n => exact revokeAll_tokStep db uid n
  | changePw n uid c nw => exact changePassword_tokStep db n uid c nw
  | login n f e pw => exact loginUser_tokStep db n f e pw hwf
  | mint u ip n f => exact tokStep_append _ _ hwf
  | mfaVerify t s uid tk m bc =>
    have h := verifyMFA_tokens db t s uid tk m bc
    rw [show stepOp db (.mfaVerify t s uid tk m bc) = (verifyMFA db t s uid tk m bc).2 from rfl, h]
    exact tokStep_self _

theorem revokedPresent_step (db : Db) (op : StoreOp) (tok : String)
    (hwf : wfOp db op) (h : revokedPresent db tok) :
    revokedPresent (stepOp db op) tok :=
  tokStep_preserves (stepOp_tokStep db op hwf) h.1 h.2

theorem revokedPresent_run (db : Db) (ops : List StoreOp) (tok : String)
    (hwf : WFTrace db ops) (h : revokedPresent db tok) :
    revokedPresent (runOps db ops) tok := by
  induction ops generalizing db with
  | nil => exact h
  | cons op ops ih =>
    exact ih (stepOp db op) hwf.2 (revokedPresent_step db op tok hwf.1 h)

theorem rotate_rejects_revoked (db : Db) (p : Bool) (now : Nat) (f ip : String)
    (tok : String) (htok : tok ≠ "") (h : RevokedAll db.tokens tok) :
    refreshAccessToken db p now f ip (some tok) = (.invalidOrExpired, db) := by
  have hfind : db.tokens.find? (liveTokenFilter tok now) = none := by
    rw [List.find?_eq_none]
    intro r hr
    by_cases hrt : r.token = tok
    · have hrev := h r hr hrt
      simp [liveTokenFilter, hrev]
    · simp [liveTokenFilter, hrt]
  simp [refreshAccessToken, htok, hfind]

/-- **C1.**  Rotation is single-use.  A successful rotation of a stored
token revokes the presented token's record with the rotation reason
(while minting exactly one fresh, unrevoked token — the freshly drawn
string), and afterwards, across any well-formed sequence of further
service operations (rotations, logouts, revoke-alls, password changes,
logins, token mints, MFA verifications), every rotation call presenting
the same token answers "invalid or expired" and leaves the store
untouched — so at most one rotation of a given token ever succeeds, and
the reuse rejection is surfaced exactly like an invalid token. -/
theorem refresh_rotation_single_use (db : Db) (production : Bool) (now : Nat)
    (freshTok reqIp tok : String) (a : AccessPayload) (newTok : String)
    (db' : Db)
    (hfresh : freshTok ∉ db.tokens.map (·.token))
    (hrot : refreshAccessToken db production now freshTok reqIp (some tok)
      = (.refreshed a newTok, db')) :
    (∃ r ∈ db'.tokens, r.token = tok ∧ r.isRevoked = true
        ∧ r.revokedReason = some rotationReason)
    ∧ RevokedAll db'.tokens tok
    ∧ newTok = freshTok
    ∧ (∃ r ∈ db'.tokens, r.token = freshTok ∧ r.isRevoked = false)
    ∧ (∀ ops : List StoreOp, WFTrace db' ops →
        ∀ (p₂ : Bool) (n₂ : Nat) (f₂ i₂ : String),
          refreshAccessToken (runOps db' ops) p₂ n₂ f₂ i₂ (some tok)
            = (.invalidOrExpired, runOps db' ops)) := by
  by_cases htok : tok = ""
  · have heq : refreshAccessToken db production now freshTok reqIp (some tok)
        = (.missingToken, db) := by
      simp [refreshAccessToken, htok]
    rw [heq] at hrot
    simp [Prod.mk.injEq] at hrot
  · cases hfind : db.tokens.find? (liveTokenFilter tok now) with
    | none =>
      have heq : refreshAccessToken db production now freshTok reqIp (some tok)
          = (.invalidOrExpired, db) := by
        simp [refreshAccessToken, htok, hfind]
      rw [heq] at hrot
      simp [Prod.mk.injEq] at hrot
    | some doc =>
      by_cases hip :
          (doc.ip != "" && doc.ip != "unknown" && doc.ip != reqIp && production)
            = true
      · have h1 : (refreshAccessToken db production now freshTok reqIp
            (some tok)).1 = .securityAlert := by
          simp [refreshAccessToken, htok, hfind, hip]
        rw [hrot] at h1
        simp at h1
      · cases huser : findUserById db doc.user with
        | none =>
          have h1 : (refreshAccessToken db production now freshTok reqIp
              (some tok)).1 = .unknownUser := by
            simp [refreshAccessToken, htok, hfind, hip, huser]
          rw [hrot] at h1
          simp at h1
        | some u =>
          have heq : refreshAccessToken db production now freshTok reqIp
              (some tok)
              = (.refreshed ⟨u.id, u.username, u.email, now / 1000, reqIp⟩
                  freshTok,
                 { users := db.users
                   tokens := db.tokens.map (fun r =>
                       if r.token == tok then
                         { r with isRevoked := true
                                  revokedReason := some rotationReason }
                       else r)
                     ++ [{ token := freshTok, user := u.id
                           expiresAt := now + sevenDaysMs, ip := reqIp
                           isRevoked := false, revokedReason := none }] }) := by
            simp [refreshAccessToken, htok, hfind, hip, huser, generateTokens]
          rw [heq] at hrot
          have hfst := congrArg Prod.fst hrot
          have hsnd := congrArg Prod.snd hrot
          simp only at hfst hsnd
          have hnew : newTok = freshTok := by
            cases hfst
            rfl
          subst hsnd
          have hdocmem : doc ∈ db.tokens := List.mem_of_find?_eq_some hfind
          have hdocp := List.find?_some hfind
          have hdoc : (doc.token = tok ∧ doc.isRevoked = false)
              ∧ now < doc.expiresAt := by
            simpa [liveTokenFilter] using hdocp
          have hdt : doc.token = tok := hdoc.1.1
          have htokmem : tok ∈ db.tokens.map (·.token) := by
            rw [← hdt]
            exact List.mem_map_of_mem _ hdocmem
          have hpres : ∃ r ∈ (db.tokens.map (fun r =>
              if r.token == tok then
                { r with isRevoked := true
                         revokedReason := some rotationReason }
              else r)
            ++ [{ token := freshTok, user := u.id
                  expiresAt := now + sevenDaysMs, ip := reqIp
                  isRevoked := false, revokedReason := none }]),
              r.token = tok ∧ r.isRevoked = true
              ∧ r.revokedReason = some rotationReason := by
            refine ⟨{ doc with isRevoked := true
                               revokedReason := some rotationReason },
              List.mem_append_left _ ?_, hdt, rfl, rfl⟩
            have himg := List.mem_map_of_mem (fun r : TokenRec =>
              if r.token == tok then
                { r with isRevoked := true
                         revokedReason := some rotationReason }
              else r) hdocmem
            simpa [hdt] using himg
          have hrevall : RevokedAll (db.tokens.map (fun r =>
              if r.token == tok then
                { r with isRevoked := true
                         revokedReason := some rotationReason }
              else r)
            ++ [{ token := freshTok, user := u.id
                  expiresAt := now + sevenDaysMs, ip := reqIp
                  isRevoked := false, revokedReason := none }]) tok := by
            intro r hr hrt
            rcases List.mem_append.mp hr with h1 | h1
            · obtain ⟨r₀, hr₀, hrr⟩ := List.mem_map.mp h1
              by_cases h0 : (r₀.token == tok) = true
              · rw [← hrr]
                simp [h0]
              · rw [← hrr] at hrt
                simp only [h0, Bool.false_eq_true, if_false] at hrt
                exact absurd hrt (by simpa using h0)
            · rcases List.mem_singleton.mp h1 with h
              rw [h] at hrt
              have hft : freshTok = tok := hrt
              apply absurd _ hfresh
              rw [hft]
              exact htokmem
          refine ⟨hpres, hrevall, hnew, ?_, ?_⟩
          · exact ⟨_, List.mem_append_right _ (List.mem_singleton_self _),
              rfl, rfl⟩
          · intro ops hwf p₂ n₂ f₂ i₂
            have hrp := revokedPresent_run _ ops tok hwf
              ⟨⟨_, hpres.choose_spec.1,
                hpres.choose_spec.2.1⟩, hrevall⟩
            exact rotate_rejects_revoked _ p₂ n₂ f₂ i₂ tok htok hrp.2

/-- Witness for C1: after a successful rotation of `t1` in the concrete
store, immediately presenting `t1` again (empty intervening trace) is
rejected as invalid/expired with the store unchanged. -/
theorem refresh_rotation_single_use_witness :
    refreshAccessToken
        (runOps (refreshAccessToken wDb false 5 "t2" "9.9.9.9" (some "t1")).2 [])
        false 6 "t3" "8.8.8.8" (some "t1")
      = (.invalidOrExpired,
         runOps (refreshAccessToken wDb false 5 "t2" "9.9.9.9" (some "t1")).2 []) :=
  (refresh_rotation_single_use wDb false 5 "t2" "9.9.9.9" "t1"
      ⟨1, "alice", "alice@x.com", 0, "9.9.9.9"⟩ "t2"
      (refreshAccessToken wDb false 5 "t2" "9.9.9.9" (some "t1")).2
      (by decide) (by decide)).2.2.2.2 [] trivial false 6 "t3" "8.8.8.8"

end SocialAuth
